import Mathlib

/-!
Shallow embedding of `trackingbot_hyperliquid.py`, a Telegram bot that
watches Hyperliquid trading addresses, diffs position snapshots between
polls, and sends periodic 12-hour summaries.

Modelling conventions:
* Python dicts are association lists; `setKey` mirrors `d[k] = v`
  (replace in place, else append), `lookupKey` mirrors `d.get(k)`,
  `delKey` mirrors `del d[k]`.
* Python floats are `ℚ` (the program only compares, adds and divides
  parsed decimal strings).
* Wall-clock datetimes are integer seconds; `hourOf` is `datetime.hour`
  and `timedelta` arithmetic is plain integer arithmetic.
* Network calls are oracle arguments: a fetch is an
  `Option RawResponse` (`none` models the `except` path of
  `get_positions`, which returns Python `None`).
* Every outbound Telegram message is a structured value recording the
  recipient, and for monitoring-loop traffic also the address and the
  notification event, instead of the formatted text.
-/

namespace TrackingBot

/-- Mirror of Python `d[k] = v` on a dict as an association list:
replace the value at the first matching key in place, else append. -/
def setKey {κ β : Type} [DecidableEq κ] : List (κ × β) → κ → β → List (κ × β)
  | [], k, v => [(k, v)]
  | (k', v') :: rest, k, v =>
      if k' = k then (k, v) :: rest else (k', v') :: setKey rest k v

/-- Mirror of Python `d.get(k)` / `k in d` on an association list. -/
def lookupKey {κ β : Type} [DecidableEq κ] : List (κ × β) → κ → Option β
  | [], _ => none
  | (k', v') :: rest, k => if k' = k then some v' else lookupKey rest k

/-- Mirror of Python `del d[k]` (dict keys are unique, so filtering the
key out is the same as deleting its single entry). -/
def delKey {κ β : Type} [DecidableEq κ] (l : List (κ × β)) (k : κ) : List (κ × β) :=
  l.filter (fun p => decide (p.1 ≠ k))

/-- Telegram chat identifiers are integers. -/
abbrev ChatId := ℤ

/-- Addresses are plain strings (case-sensitive, compared exactly). -/
abbrev Address := String

/-- One open position, as built by `get_positions` (lines 88-96 of the
source): `leverage` is kept as the raw string the API delivered, all
numeric fields are parsed floats, `side` is derived from the sign of
`size`. -/
structure Position where
  size : ℚ
  entry : ℚ
  pnl : ℚ
  leverage : String
  side : String
  liq_price : ℚ
  margin : ℚ
deriving DecidableEq, Repr

/-- A snapshot: the dict `coin ↦ position` returned by `get_positions`. -/
abbrev Snapshot := List (String × Position)

/-- Raw value of one numeric JSON field of a position, as seen by the
parser: the key can be missing, hold JSON `null`, hold something
`float()` accepts (value `q`), or hold something `float()` rejects
(`ValueError`/`TypeError`). -/
inductive RawNum where
  | missing
  | null
  | num (q : ℚ)
  | bad
deriving DecidableEq, Repr

/-- Raw value of the `leverage` field: missing (`pos.get` then yields
the dict default `{}`), a dict with an optional `"value"` entry (kept
as its string rendering), or a scalar with its string rendering and its
Python truthiness. -/
inductive RawLev where
  | missing
  | dictWith (v : Option String)
  | scalar (s : String) (truthy : Bool)
deriving DecidableEq, Repr

/-- One element of the `assetPositions` array, after projecting out the
fields `get_positions` reads.  `coin` is `none` when the key is missing
or `null`; the empty string is also falsy in Python. -/
structure RawPosition where
  coin : Option String
  szi : RawNum
  entryPx : RawNum
  unrealizedPnl : RawNum
  liquidationPx : RawNum
  marginUsed : RawNum
  leverage : RawLev
deriving DecidableEq, Repr

/-- A parsed JSON body of a successful HTTP response: `none` when the
`"assetPositions"` key is absent, otherwise the array, where a `none`
element models an item without a `"position"` key (`KeyError`). -/
abbrev RawResponse := Option (List (Option RawPosition))

/-- Combined effect of `pos.get(field, "0")` followed by
`float(x) if x is not None else 0.0` under the item's
`except (ValueError, TypeError, KeyError)` handler: a missing key
parses the default string `"0"`, `null` takes the explicit `0.0`
branch, a parseable value yields its number, and anything `float()`
rejects raises (`none`).  The `liquidationPx` variant
(`x is not None and x != "0"`) lands on the same values. -/
def floatOrDefault : RawNum → Option ℚ
  | .missing => some 0
  | .null => some 0
  | .num q => some q
  | .bad => none

/-- Mirror of lines 82-86: a dict leverage yields its `"value"` entry
(default `"1"`), a scalar yields `str(x)` when truthy, else `"1"`. -/
def parseLeverage : RawLev → String
  | .missing => "1"
  | .dictWith (some s) => s
  | .dictWith none => "1"
  | .scalar s truthy => if truthy then s else "1"

/-- Mirror of the body of the `for item in data["assetPositions"]` loop
(lines 66-99), given the `"position"` object: `none` means the item was
skipped, either because `coin` is falsy, the size is zero, or a numeric
field failed to parse. -/
def parse_position (pos : RawPosition) : Option (String × Position) :=
  match pos.coin with
    | none => none
    | some coin =>
      if coin = "" then none
      else
        match floatOrDefault pos.szi with
        | none => none
        | some size =>
          if size ≠ 0 then
            match floatOrDefault pos.entryPx, floatOrDefault pos.unrealizedPnl,
                  floatOrDefault pos.liquidationPx, floatOrDefault pos.marginUsed with
            | some entry, some pnl, some liq, some margin =>
                some (coin,
                  { size := size
                    entry := entry
                    pnl := pnl
                    leverage := parseLeverage pos.leverage
                    side := if size > 0 then "LONG" else "SHORT"
                    liq_price := liq
                    margin := margin })
            | _, _, _, _ => none
          else none

/-- One `assetPositions` item: an absent `"position"` key raises
`KeyError`, which the handler turns into a skip. -/
def parseItem : Option RawPosition → Option (String × Position)
  | none => none
  | some pos => parse_position pos

/-- Mirror of the successful branch of `get_positions`: build the
`positions` dict by inserting each surviving item. -/
def parseResponse : RawResponse → Snapshot
  | none => []
  | some items =>
      items.foldl
        (fun acc it =>
          match parseItem it with
          | none => acc
          | some (c, p) => setKey acc c p)
        []

/-- Mirror of `get_positions` as seen by its callers: `none` when the
HTTP call or JSON decoding raised (the function returns Python `None`),
otherwise the parsed snapshot. -/
def get_positions (resp : Option RawResponse) : Option Snapshot :=
  resp.map parseResponse

/-- The three module-level dicts of the program. -/
structure BotState where
  user_subscriptions : List (ChatId × List Address)
  position_state : List (Address × Snapshot)
  last_daily_update : List ((ChatId × Address) × ℤ)
deriving DecidableEq, Repr

/-- Poll cadence constant (`CHECK_INTERVAL = 30`). -/
def CHECK_INTERVAL : ℤ := 30

/-- Hours at which 12-hour summaries may fire (`UPDATE_HOURS = [0, 12]`). -/
def UPDATE_HOURS : List ℤ := [0, 12]

/-- The `datetime.hour` of a wall-clock instant given as integer
seconds: floor-divide by 3600 and reduce modulo 24. -/
def hourOf (t : ℤ) : ℤ := Int.emod (Int.ediv t 3600) 24

/-- Outcome of a command, abstracting the formatted reply text. -/
inductive Reply where
  | invalidAddress
  | alreadyWatching
  | nowMonitoring
  | currentPositions
  | notWatching
  | stoppedMonitoring
deriving DecidableEq, Repr

/-- Addresses a chat currently watches (`user_subscriptions.get(chat, [])`). -/
def subsOf (st : BotState) (chat_id : ChatId) : List Address :=
  (lookupKey st.user_subscriptions chat_id).getD []

/-- Mirror of
`[chat_id for chat_id, addrs in user_subscriptions.items() if address in addrs]`. -/
def subscribersOf (st : BotState) (address : Address) : List ChatId :=
  (st.user_subscriptions.filter (fun p => decide (address ∈ p.2))).map Prod.fst

/-- Mirror of the address-format test of `handle_add` (line 138):
must start with `"0x"` (its first two characters are `0` and `x`) and
be exactly 42 characters long. -/
def validAddr (address : String) : Bool :=
  (address.data.take 2 == ['0', 'x']) && address.length == 42

/-- Mirror of `handle_add` (lines 135-180).  The fetch the handler may
perform is supplied as the oracle `resp`.  Returns the new state and
the replies sent to the requesting chat, in order. -/
def handle_add (st : BotState) (chat_id : ChatId) (address : Address)
    (resp : Option RawResponse) : BotState × List (ChatId × Reply) :=
  if !validAddr address then
    (st, [(chat_id, .invalidAddress)])
  else
    let subs := subsOf st chat_id
    if address ∈ subs then
      (st, [(chat_id, .alreadyWatching)])
    else
      let us' := setKey st.user_subscriptions chat_id (subs ++ [address])
      let ps' :=
        if (lookupKey st.position_state address).isSome then st.position_state
        else setKey st.position_state address ((get_positions resp).getD [])
      let stored := (lookupKey ps' address).getD []
      ({ st with user_subscriptions := us', position_state := ps' },
       (chat_id, .nowMonitoring) ::
         (if stored.isEmpty then [] else [(chat_id, .currentPositions)]))

/-- Mirror of `handle_remove` (lines 182-193): reply `notWatching` when
the pair is absent, otherwise remove the first occurrence of the
address and delete the chat's entry when its list becomes empty. -/
def handle_remove (st : BotState) (chat_id : ChatId) (address : Address) :
    BotState × List (ChatId × Reply) :=
  match lookupKey st.user_subscriptions chat_id with
  | none => (st, [(chat_id, .notWatching)])
  | some subs =>
    if address ∈ subs then
      let subs' := subs.erase address
      let us' :=
        if subs'.isEmpty then delKey st.user_subscriptions chat_id
        else setKey st.user_subscriptions chat_id subs'
      ({ st with user_subscriptions := us' }, [(chat_id, .stoppedMonitoring)])
    else (st, [(chat_id, .notWatching)])

/-- Notification events of the monitoring loop; each carries exactly the
position data interpolated into the corresponding message text. -/
inductive PosEvent where
  | opened (coin : String) (side leverage : String) (size value entry liq : ℚ)
  | closed (coin : String) (profit : Bool) (side leverage : String)
      (entry : ℚ) (size : ℚ) (pnl : ℚ)
  | resized (coin : String) (increased : Bool) (side leverage : String)
      (oldSize newSize changePct pnl : ℚ)
deriving DecidableEq, Repr

/-- Payload of one outbound monitoring-loop message. -/
inductive CycleBody where
  | event (e : PosEvent)
  | summary
deriving DecidableEq, Repr

/-- One outbound monitoring-loop message: recipient chat, the address it
concerns, and its payload. -/
structure CycleMsg where
  chat : ChatId
  addr : Address
  body : CycleBody
deriving DecidableEq, Repr

/-- The NEW-POSITION message body for one coin (lines 280-293). -/
def openedEventFor (coin : String) (pos : Position) : PosEvent :=
  .opened coin pos.side pos.leverage pos.size (|pos.size| * pos.entry)
    pos.entry pos.liq_price

/-- The POSITION-CLOSED message body, with its PROFIT/LOSS split on
`old_pos['pnl'] >= 0` (lines 301-310). -/
def closedEventFor (coin : String) (pos : Position) : PosEvent :=
  .closed coin (decide (pos.pnl ≥ 0)) pos.side pos.leverage pos.entry
    pos.size pos.pnl

/-- The resize comparison of lines 318-335: on absolute sizes, guarded
by `old_size > 0`, fires when the percentage change strictly exceeds
10, labelled INCREASED when the new magnitude is strictly larger. -/
def resizeEventFor (coin : String) (oldPos newPos : Position) : Option PosEvent :=
  let old_size := |oldPos.size|
  let new_size := |newPos.size|
  if old_size > 0 then
    let size_change_pct := |new_size - old_size| / old_size * 100
    if size_change_pct > 10 then
      some (.resized coin (decide (new_size > old_size)) newPos.side
        newPos.leverage old_size new_size size_change_pct newPos.pnl)
    else none
  else none

/-- First loop of `check_positions_for_subscribers`: coins of the new
snapshot absent from the old one. -/
def openedEvents (old new : Snapshot) : List PosEvent :=
  new.filterMap (fun cp =>
    if (lookupKey old cp.1).isSome then none
    else some (openedEventFor cp.1 cp.2))

/-- Second loop: coins of the old snapshot absent from the new one. -/
def closedEvents (old new : Snapshot) : List PosEvent :=
  old.filterMap (fun cp =>
    if (lookupKey new cp.1).isSome then none
    else some (closedEventFor cp.1 cp.2))

/-- Third loop: coins present in both snapshots, compared by size. -/
def resizedEvents (old new : Snapshot) : List PosEvent :=
  new.filterMap (fun cp =>
    match lookupKey old cp.1 with
    | none => none
    | some oldPos => resizeEventFor cp.1 oldPos cp.2)

/-- All events one run of `check_positions_for_subscribers` emits for a
pair of snapshots, in emission order. -/
def diffEvents (old new : Snapshot) : List PosEvent :=
  openedEvents old new ++ closedEvents old new ++ resizedEvents old new

/-- Mirror of `check_positions_for_subscribers` (lines 264-341): on
fetch failure return immediately; otherwise fan every event out to
every subscriber and overwrite `position_state[address]`. -/
def check_positions_for_subscribers (st : BotState) (address : Address)
    (resp : Option RawResponse) : BotState × List CycleMsg :=
  match get_positions resp with
  | none => (st, [])
  | some current =>
    let old := (lookupKey st.position_state address).getD []
    let subs := subscribersOf st address
    let msgs := (diffEvents old current).flatMap
      (fun e => subs.map (fun c => ⟨c, address, .event e⟩))
    ({ st with position_state := setKey st.position_state address current }, msgs)

/-- Mirror of `send_summary_to_subscribers` (lines 343-371): one
summary message to every subscriber of the address, recording
`last_daily_update[f"{chat}_{address}"] = now` for each of them. -/
def send_summary_to_subscribers (st : BotState) (address : Address) (now : ℤ) :
    BotState × List CycleMsg :=
  let subs := subscribersOf st address
  ({ st with
      last_daily_update :=
        subs.foldl (fun acc c => setKey acc (c, address) now) st.last_daily_update },
   subs.map (fun c => ⟨c, address, .summary⟩))

/-- Mirror of `should_send_update` (lines 373-382): a missing key is
first populated with `now - timedelta(days=1)`; the answer is `True`
when the hour is an update hour and at least 12 hours have elapsed. -/
def should_send_update (st : BotState) (chat_id : ChatId) (address : Address)
    (now : ℤ) : Bool × BotState :=
  let key := (chat_id, address)
  let st' :=
    if (lookupKey st.last_daily_update key).isSome then st
    else { st with last_daily_update := setKey st.last_daily_update key (now - 86400) }
  let last_sent := (lookupKey st'.last_daily_update key).getD 0
  (decide (hourOf now ∈ UPDATE_HOURS) && decide (now - last_sent ≥ 12 * 3600), st')

/-- Pure reading of the dueness test of `should_send_update`, before
its default-insertion side effect. -/
def isDue (st : BotState) (chat_id : ChatId) (address : Address) (now : ℤ) : Bool :=
  decide (hourOf now ∈ UPDATE_HOURS) &&
    decide (now - ((lookupKey st.last_daily_update (chat_id, address)).getD (now - 86400))
      ≥ 12 * 3600)

/-- The inner `for chat_id in subscribers` loop of `monitoring_loop`
(lines 404-407): probe subscribers in order; on the first due one, send
the summary to everyone and `break`. -/
def summary_check_loop (st : BotState) (subs : List ChatId) (address : Address)
    (now : ℤ) : BotState × List CycleMsg :=
  match subs with
  | [] => (st, [])
  | c :: rest =>
    let r := should_send_update st c address now
    if r.1 then send_summary_to_subscribers r.2 address now
    else summary_check_loop r.2 rest address now

/-- The summary block of `monitoring_loop` for one address (lines
402-407), guarded by `datetime.now().hour in UPDATE_HOURS`. -/
def summary_step (st : BotState) (address : Address) (now : ℤ) :
    BotState × List CycleMsg :=
  if hourOf now ∈ UPDATE_HOURS then
    summary_check_loop st (subscribersOf st address) address now
  else (st, [])

/-- Everything one iteration of the address loop of `monitoring_loop`
does for one address: change detection, then the summary block. -/
def process_address (st : BotState) (address : Address)
    (fetch : Address → Option RawResponse) (now : ℤ) : BotState × List CycleMsg :=
  let r1 := check_positions_for_subscribers st address (fetch address)
  let r2 := summary_step r1.1 address now
  (r2.1, r1.2 ++ r2.2)

/-- The `for address in all_addresses` loop of one monitoring cycle. -/
def processAddresses (st : BotState) (addresses : List Address)
    (fetch : Address → Option RawResponse) (now : ℤ) : BotState × List CycleMsg :=
  match addresses with
  | [] => (st, [])
  | a :: rest =>
    let r1 := process_address st a fetch now
    let r2 := processAddresses r1.1 rest fetch now
    (r2.1, r1.2 ++ r2.2)

/-- The distinct watched addresses (`all_addresses = set(); ... update`);
Python set order is unspecified, modelled as first-occurrence order. -/
def allAddresses (st : BotState) : List Address :=
  ((st.user_subscriptions.map Prod.snd).foldr (· ++ ·) []).dedup

/-- One full iteration of the `while True` body of `monitoring_loop`. -/
def monitoring_cycle (st : BotState) (fetch : Address → Option RawResponse)
    (now : ℤ) : BotState × List CycleMsg :=
  processAddresses st (allAddresses st) fetch now

/-- Selector for CLOSED events about a given coin. -/
def isClosedOf (coin : String) : PosEvent → Bool
  | .closed c .. => c == coin
  | _ => false

/-- Selector for resize events about a given coin. -/
def isResizedOf (coin : String) : PosEvent → Bool
  | .resized c .. => c == coin
  | _ => false

/-- No position of zero size: the snapshot invariant of the spec. -/
def SnapInv (s : Snapshot) : Prop := ∀ cp ∈ s, (cp : String × Position).2.size ≠ 0

/-- Every cached snapshot satisfies the zero-size-free invariant. -/
def StateInv (st : BotState) : Prop :=
  ∀ asnap ∈ st.position_state, SnapInv (asnap : Address × Snapshot).2

/-- Convenience for the registry relation "chat watches address". -/
def watches (st : BotState) (chat_id : ChatId) (address : Address) : Prop :=
  address ∈ subsOf st chat_id

instance (st : BotState) (chat_id : ChatId) (address : Address) :
    Decidable (watches st chat_id address) :=
  inferInstanceAs (Decidable (address ∈ subsOf st chat_id))

/-- Concrete well-formed test addresses (42 characters, `0x` first). -/
def addrA : Address := "0xaaaaaaaaaaaaaaaaaaaaaaaaaaaaaaaaaaaaaaaa"

/-- A second concrete well-formed test address. -/
def addrB : Address := "0xbbbbbbbbbbbbbbbbbbbbbbbbbbbbbbbbbbbbbbbb"

/-- Ten-unit LONG position used in the resize-boundary examples. -/
def p10 : Position :=
  { size := 10, entry := 100, pnl := 5, leverage := "5", side := "LONG",
    liq_price := 0, margin := 1 }

/-- The same position grown to exactly 110% of its size. -/
def p11 : Position := { p10 with size := 11 }

/-- The same position grown to 110.1% of its size. -/
def p1101 : Position := { p10 with size := 1101/100 }

/-- A position carrying a negative PnL. -/
def pLoss : Position := { p10 with pnl := -5 }

/-- A position carrying exactly zero PnL. -/
def pEven : Position := { p10 with pnl := 0 }

/-- A raw API item that parses cleanly. -/
def rawGood : RawPosition :=
  { coin := some "BTC", szi := .num 2, entryPx := .num 50000,
    unrealizedPnl := .num 100, liquidationPx := .num 45000,
    marginUsed := .missing, leverage := .dictWith (some "5") }

/-- The same raw item with an `entryPx` that `float()` rejects. -/
def rawBadEntry : RawPosition := { rawGood with entryPx := .bad }

/-- The same raw item with a JSON-`null` `entryPx`. -/
def rawNullEntry : RawPosition := { rawGood with entryPx := .null }

/-- The same raw item with zero size. -/
def rawZero : RawPosition := { rawGood with szi := .num 0 }

/-- The position `rawGood` parses to. -/
def pGood : Position :=
  { size := 2, entry := 50000, pnl := 100, leverage := "5", side := "LONG",
    liq_price := 45000, margin := 0 }

/-- State for the duplicate-digest scenario: chats 1 and 2 both watch
`addrA`; chat 2 was last sent a digest at t = 87000 (00:10 of day two),
chat 1 has never been checked. -/
def stDup : BotState :=
  { user_subscriptions := [(1, [addrA]), (2, [addrA])]
    position_state := []
    last_daily_update := [((2, addrA), 87000)] }

/-- State with a single subscriber of `addrA` who is overdue. -/
def stOne : BotState :=
  { user_subscriptions := [(1, [addrA])]
    position_state := []
    last_daily_update := [] }

/-- State for the failed-fetch cycle scenario: chat 1 watches `addrA`
and `addrB`, and `addrA` has a cached snapshot. -/
def stTwo : BotState :=
  { user_subscriptions := [(1, [addrA, addrB])]
    position_state := [(addrA, [("BTC", p10)])]
    last_daily_update := [] }

/-- Fetch oracle that fails for `addrA` and succeeds for `addrB`. -/
def fetchBOnly : Address → Option RawResponse :=
  fun a => if a = addrB then some (some [some rawGood]) else none

/-- State whose cached snapshot for `addrA` is exactly what
`fetchGood` returns, for the self-diff scenario. -/
def stSame : BotState :=
  { user_subscriptions := [(1, [addrA])]
    position_state := [(addrA, [("BTC", pGood)])]
    last_daily_update := [] }

/-- The empty registry. -/
def stEmpty : BotState :=
  { user_subscriptions := [], position_state := [], last_daily_update := [] }

/-- Registry produced by `AddWatch(10, addrA)` then `AddWatch(20, addrA)`
from the empty state, with both initial fetches failing. -/
def stTen : BotState :=
  (handle_add (handle_add stEmpty 10 addrA none).1 20 addrA none).1

/-- The value a raw numeric field contributes when it does not make the
parser raise: its number if parseable, zero when missing or null. -/
def defaultedVal : RawNum → ℚ
  | .num q => q
  | _ => 0

section DictLemmas

variable {κ β : Type} [DecidableEq κ]

theorem lookupKey_setKey_self (l : List (κ × β)) (k : κ) (v : β) :
    lookupKey (setKey l k v) k = some v := by
  induction l with
  | nil => simp [setKey, lookupKey]
  | cons p rest ih =>
      obtain ⟨k', v'⟩ := p
      by_cases h : k' = k
      · simp [setKey, h, lookupKey]
      · simp [setKey, h, lookupKey, ih]

theorem lookupKey_setKey_ne (l : List (κ × β)) (k : κ) (v : β) (k' : κ)
    (h : k' ≠ k) : lookupKey (setKey l k v) k' = lookupKey l k' := by
  have hk : k ≠ k' := Ne.symm h
  induction l with
  | nil => simp [setKey, lookupKey, hk]
  | cons p rest ih =>
      obtain ⟨k0, v0⟩ := p
      by_cases h0 : k0 = k
      · subst h0
        simp [setKey, lookupKey, hk]
      · simp only [setKey, if_neg h0, lookupKey]
        by_cases h1 : k0 = k'
        · simp [h1]
        · simp [h1, ih]

theorem lookupKey_mem (l : List (κ × β)) (k : κ) (v : β)
    (h : lookupKey l k = some v) : (k, v) ∈ l := by
  induction l with
  | nil => simp [lookupKey] at h
  | cons p rest ih =>
      obtain ⟨k0, v0⟩ := p
      by_cases h0 : k0 = k
      · subst h0
        have h' : v0 = v := by simpa [lookupKey] using h
        subst h'
        exact List.mem_cons_self _ _
      · simp only [lookupKey, if_neg h0] at h
        exact List.mem_cons_of_mem _ (ih h)

theorem lookupKey_isSome_of_mem (l : List (κ × β)) (k : κ) (v : β)
    (h : (k, v) ∈ l) : (lookupKey l k).isSome := by
  induction l with
  | nil => simp at h
  | cons p rest ih =>
      obtain ⟨k0, v0⟩ := p
      rcases List.mem_cons.mp h with h | h
      · injection h with h1 h2
        subst h1
        simp [lookupKey]
      · by_cases h0 : k0 = k
        · simp [lookupKey, h0]
        · simpa [lookupKey, h0] using ih h

theorem lookupKey_of_mem_nodup (l : List (κ × β)) (k : κ) (v : β)
    (hnd : (l.map Prod.fst).Nodup) (h : (k, v) ∈ l) :
    lookupKey l k = some v := by
  induction l with
  | nil => simp at h
  | cons p rest ih =>
      obtain ⟨k0, v0⟩ := p
      simp only [List.map_cons, List.nodup_cons] at hnd
      rcases List.mem_cons.mp h with h | h
      · injection h with h1 h2
        subst h1
        subst h2
        simp [lookupKey]
      · have hk : k0 ≠ k := by
          intro hEq
          subst hEq
          exact hnd.1 (List.mem_map.mpr ⟨(k0, v), h, rfl⟩)
        simp only [lookupKey, if_neg hk]
        exact ih hnd.2 h

theorem ne_of_lookupKey_none (l : List (κ × β)) (k : κ)
    (h : lookupKey l k = none) : ∀ p ∈ l, p.1 ≠ k := by
  induction l with
  | nil => simp
  | cons p rest ih =>
      obtain ⟨k0, v0⟩ := p
      by_cases h0 : k0 = k
      · simp [lookupKey, h0] at h
      · simp only [lookupKey, if_neg h0] at h
        intro q hq
        rcases List.mem_cons.mp hq with hq | hq
        · subst hq; exact h0
        · exact ih h q hq

theorem mem_setKey (l : List (κ × β)) (k : κ) (v : β) (p : κ × β)
    (h : p ∈ setKey l k v) : p ∈ l ∨ p = (k, v) := by
  induction l with
  | nil => simp [setKey] at h; simp [h]
  | cons q rest ih =>
      obtain ⟨k0, v0⟩ := q
      by_cases h0 : k0 = k
      · simp only [setKey, if_pos h0] at h
        rcases List.mem_cons.mp h with h | h
        · exact Or.inr h
        · exact Or.inl (List.mem_cons_of_mem _ h)
      · simp only [setKey, if_neg h0] at h
        rcases List.mem_cons.mp h with h | h
        · exact Or.inl (h ▸ List.mem_cons_self _ _)
        · rcases ih h with h | h
          · exact Or.inl (List.mem_cons_of_mem _ h)
          · exact Or.inr h

theorem lookupKey_delKey_self (l : List (κ × β)) (k : κ) :
    lookupKey (delKey l k) k = none := by
  induction l with
  | nil => rfl
  | cons p rest ih =>
      obtain ⟨k0, v0⟩ := p
      by_cases h0 : k0 = k
      · simpa [delKey, List.filter_cons, h0] using ih
      · simpa [delKey, List.filter_cons, h0, lookupKey] using ih

theorem lookupKey_delKey_ne (l : List (κ × β)) (k k' : κ) (h : k' ≠ k) :
    lookupKey (delKey l k) k' = lookupKey l k' := by
  have hk : k ≠ k' := Ne.symm h
  induction l with
  | nil => rfl
  | cons p rest ih =>
      obtain ⟨k0, v0⟩ := p
      by_cases h0 : k0 = k
      · subst h0
        simpa [delKey, List.filter_cons, lookupKey, hk] using ih
      · by_cases h1 : k0 = k'
        · subst h1
          simp [delKey, List.filter_cons, h0, lookupKey]
        · simpa [delKey, List.filter_cons, h0, lookupKey, h1] using ih

end DictLemmas

section DiffLemmas

theorem isResizedOf_of_resizeEventFor (c coin : String) (p q : Position)
    (e : PosEvent) (h : resizeEventFor c p q = some e) :
    isResizedOf coin e = (c == coin) := by
  simp only [resizeEventFor] at h
  split at h
  · split at h
    · injection h with h
      subst h
      rfl
    · exact absurd h (by simp)
  · exact absurd h (by simp)

theorem isClosedOf_of_resizeEventFor (c coin : String) (p q : Position)
    (e : PosEvent) (h : resizeEventFor c p q = some e) :
    isClosedOf coin e = false := by
  simp only [resizeEventFor] at h
  split at h
  · split at h
    · injection h with h
      subst h
      rfl
    · exact absurd h (by simp)
  · exact absurd h (by simp)

theorem filter_openedEvents_isResizedOf (old new : Snapshot) (coin : String) :
    (openedEvents old new).filter (isResizedOf coin) = [] := by
  rw [List.filter_eq_nil_iff]
  intro e he
  rw [openedEvents, List.mem_filterMap] at he
  obtain ⟨cp, _, hg⟩ := he
  by_cases h : (lookupKey old cp.1).isSome
  · rw [if_pos h] at hg
    exact absurd hg (by simp)
  · rw [if_neg h] at hg
    injection hg with hg
    subst hg
    simp [openedEventFor, isResizedOf]

theorem filter_openedEvents_isClosedOf (old new : Snapshot) (coin : String) :
    (openedEvents old new).filter (isClosedOf coin) = [] := by
  rw [List.filter_eq_nil_iff]
  intro e he
  rw [openedEvents, List.mem_filterMap] at he
  obtain ⟨cp, _, hg⟩ := he
  by_cases h : (lookupKey old cp.1).isSome
  · rw [if_pos h] at hg
    exact absurd hg (by simp)
  · rw [if_neg h] at hg
    injection hg with hg
    subst hg
    simp [openedEventFor, isClosedOf]

theorem filter_resizedEvents_isClosedOf (old new : Snapshot) (coin : String) :
    (resizedEvents old new).filter (isClosedOf coin) = [] := by
  rw [List.filter_eq_nil_iff]
  intro e he
  rw [resizedEvents, List.mem_filterMap] at he
  obtain ⟨cp, _, hg⟩ := he
  cases hl : lookupKey old cp.1 with
  | none => rw [hl] at hg; exact absurd hg (by simp)
  | some oldPos =>
      rw [hl] at hg
      simp [isClosedOf_of_resizeEventFor cp.1 coin oldPos cp.2 e hg]

theorem filter_closedEvents_isResizedOf (old new : Snapshot) (coin : String) :
    (closedEvents old new).filter (isResizedOf coin) = [] := by
  rw [List.filter_eq_nil_iff]
  intro e he
  rw [closedEvents, List.mem_filterMap] at he
  obtain ⟨cp, _, hg⟩ := he
  by_cases h : (lookupKey new cp.1).isSome
  · rw [if_pos h] at hg
    exact absurd hg (by simp)
  · rw [if_neg h] at hg
    injection hg with hg
    subst hg
    simp [closedEventFor, isResizedOf]

theorem filter_closedEvents_not_key (old new : Snapshot) (coin : String)
    (h : coin ∉ old.map Prod.fst) :
    (closedEvents old new).filter (isClosedOf coin) = [] := by
  rw [List.filter_eq_nil_iff]
  intro e he
  rw [closedEvents, List.mem_filterMap] at he
  obtain ⟨cp, hcp, hg⟩ := he
  have hne : cp.1 ≠ coin := by
    intro hEq
    exact h (hEq ▸ List.mem_map.mpr ⟨cp, hcp, rfl⟩)
  by_cases hn : (lookupKey new cp.1).isSome
  · rw [if_pos hn] at hg
    exact absurd hg (by simp)
  · rw [if_neg hn] at hg
    injection hg with hg
    subst hg
    simp [closedEventFor, isClosedOf, hne]

theorem filter_resizedEvents_not_key (old new : Snapshot) (coin : String)
    (h : coin ∉ new.map Prod.fst) :
    (resizedEvents old new).filter (isResizedOf coin) = [] := by
  rw [List.filter_eq_nil_iff]
  intro e he
  rw [resizedEvents, List.mem_filterMap] at he
  obtain ⟨cp, hcp, hg⟩ := he
  have hne : cp.1 ≠ coin := by
    intro hEq
    exact h (hEq ▸ List.mem_map.mpr ⟨cp, hcp, rfl⟩)
  cases hl : lookupKey old cp.1 with
  | none => rw [hl] at hg; exact absurd hg (by simp)
  | some oldPos =>
      rw [hl] at hg
      simp [isResizedOf_of_resizeEventFor cp.1 coin oldPos cp.2 e hg, hne]

theorem closedEvents_cons (new : Snapshot) (c : String) (q : Position)
    (old : Snapshot) :
    closedEvents ((c, q) :: old) new =
      (if (lookupKey new c).isSome then closedEvents old new
       else closedEventFor c q :: closedEvents old new) := by
  by_cases h : (lookupKey new c).isSome
  · simp [closedEvents, List.filterMap_cons, h]
  · simp [closedEvents, List.filterMap_cons, h]

theorem resizedEvents_cons (old : Snapshot) (c : String) (q : Position)
    (rest : Snapshot) :
    resizedEvents old ((c, q) :: rest) =
      (match lookupKey old c with
       | none => resizedEvents old rest
       | some po =>
         match resizeEventFor c po q with
         | none => resizedEvents old rest
         | some e => e :: resizedEvents old rest) := by
  cases hl : lookupKey old c with
  | none => simp [resizedEvents, List.filterMap_cons, hl]
  | some po =>
      cases hr : resizeEventFor c po q with
      | none => simp [resizedEvents, List.filterMap_cons, hl, hr]
      | some e => simp [resizedEvents, List.filterMap_cons, hl, hr]

theorem filter_closedEvents_keyed (new : Snapshot) (coin : String) (po : Position) :
    ∀ old : Snapshot, (old.map Prod.fst).Nodup → lookupKey old coin = some po →
      (closedEvents old new).filter (isClosedOf coin) =
        (if (lookupKey new coin).isSome then [] else [closedEventFor coin po])
  | [], _, ho => by simp [lookupKey] at ho
  | (c0, q0) :: rest, hnd, ho => by
      simp only [List.map_cons, List.nodup_cons] at hnd
      rw [closedEvents_cons]
      by_cases hc : c0 = coin
      · subst hc
        have hq : q0 = po := by simpa [lookupKey] using ho
        subst hq
        by_cases hn : (lookupKey new c0).isSome
        · rw [if_pos hn, if_pos hn]
          exact filter_closedEvents_not_key rest new c0 hnd.1
        · rw [if_neg hn, if_neg hn, List.filter_cons,
            if_pos (by simp [closedEventFor, isClosedOf]),
            filter_closedEvents_not_key rest new c0 hnd.1]
      · have ho' : lookupKey rest coin = some po := by
          simpa [lookupKey, hc] using ho
        have ih := filter_closedEvents_keyed new coin po rest hnd.2 ho'
        by_cases hn : (lookupKey new c0).isSome
        · rw [if_pos hn]
          exact ih
        · rw [if_neg hn, List.filter_cons,
            if_neg (by simp [closedEventFor, isClosedOf, hc])]
          exact ih

theorem filter_resizedEvents_keyed (old : Snapshot) (coin : String) (pn : Position) :
    ∀ new : Snapshot, (new.map Prod.fst).Nodup → lookupKey new coin = some pn →
      (resizedEvents old new).filter (isResizedOf coin) =
        (match lookupKey old coin with
         | none => []
         | some po => (resizeEventFor coin po pn).toList)
  | [], _, hn => by simp [lookupKey] at hn
  | (c0, q0) :: rest, hnd, hn => by
      simp only [List.map_cons, List.nodup_cons] at hnd
      rw [resizedEvents_cons]
      by_cases hc : c0 = coin
      · subst hc
        have hq : q0 = pn := by simpa [lookupKey] using hn
        subst hq
        cases hl : lookupKey old c0 with
        | none => exact filter_resizedEvents_not_key old rest c0 hnd.1
        | some po =>
            show List.filter (isResizedOf c0)
                (match resizeEventFor c0 po q0 with
                 | none => resizedEvents old rest
                 | some e => e :: resizedEvents old rest) =
              (resizeEventFor c0 po q0).toList
            cases hr : resizeEventFor c0 po q0 with
            | none => exact filter_resizedEvents_not_key old rest c0 hnd.1
            | some e0 =>
                have hsel : isResizedOf c0 e0 = true := by
                  simp [isResizedOf_of_resizeEventFor c0 c0 po q0 e0 hr]
                simp only [List.filter_cons, hsel, if_true]
                rw [filter_resizedEvents_not_key old rest c0 hnd.1]
                rfl
      · have hn' : lookupKey rest coin = some pn := by
          simpa [lookupKey, hc] using hn
        have ih := filter_resizedEvents_keyed old coin pn rest hnd.2 hn'
        cases hl : lookupKey old c0 with
        | none => exact ih
        | some po =>
            show List.filter (isResizedOf coin)
                (match resizeEventFor c0 po q0 with
                 | none => resizedEvents old rest
                 | some e => e :: resizedEvents old rest) =
              (match lookupKey old coin with
               | none => []
               | some po' => (resizeEventFor coin po' pn).toList)
            cases hr : resizeEventFor c0 po q0 with
            | none => exact ih
            | some e0 =>
                have hsel : isResizedOf coin e0 = false := by
                  simp [isResizedOf_of_resizeEventFor c0 coin po q0 e0 hr, hc]
                simp only [List.filter_cons, hsel, Bool.false_eq_true, if_false]
                exact ih

end DiffLemmas

section SchedulerLemmas

theorem should_send_update_fst (st : BotState) (c : ChatId) (a : Address) (now : ℤ) :
    (should_send_update st c a now).1 = isDue st c a now := by
  unfold should_send_update isDue
  cases hlk : lookupKey st.last_daily_update (c, a) with
  | none => simp [hlk, lookupKey_setKey_self]
  | some v => simp [hlk]

theorem should_send_update_us (st : BotState) (c : ChatId) (a : Address) (now : ℤ) :
    (should_send_update st c a now).2.user_subscriptions = st.user_subscriptions := by
  unfold should_send_update
  cases hlk : lookupKey st.last_daily_update (c, a) with
  | none => simp [hlk]
  | some v => simp [hlk]

theorem should_send_update_ps (st : BotState) (c : ChatId) (a : Address) (now : ℤ) :
    (should_send_update st c a now).2.position_state = st.position_state := by
  unfold should_send_update
  cases hlk : lookupKey st.last_daily_update (c, a) with
  | none => simp [hlk]
  | some v => simp [hlk]

theorem should_send_update_lookup_ne (st : BotState) (c : ChatId) (a : Address)
    (now : ℤ) (c' : ChatId) (a' : Address) (h : c' ≠ c) :
    lookupKey (should_send_update st c a now).2.last_daily_update (c', a') =
      lookupKey st.last_daily_update (c', a') := by
  unfold should_send_update
  cases hlk : lookupKey st.last_daily_update (c, a) with
  | none =>
      simp only [hlk, Option.isSome_none, Bool.false_eq_true, if_false]
      exact lookupKey_setKey_ne _ _ _ _ (by simp [h])
  | some v => simp [hlk]

theorem isDue_congr (st st' : BotState) (c : ChatId) (a : Address) (now : ℤ)
    (h : lookupKey st'.last_daily_update (c, a) = lookupKey st.last_daily_update (c, a)) :
    isDue st' c a now = isDue st c a now := by
  unfold isDue
  rw [h]

theorem subscribersOf_congr (st st' : BotState) (a : Address)
    (h : st'.user_subscriptions = st.user_subscriptions) :
    subscribersOf st' a = subscribersOf st a := by
  unfold subscribersOf
  rw [h]

theorem lookupKey_foldl_setKey_of_some (subs : List ChatId) (a : Address) (now : ℤ)
    (m : List ((ChatId × Address) × ℤ)) (c : ChatId)
    (h : lookupKey m (c, a) = some now) :
    lookupKey (subs.foldl (fun acc c' => setKey acc (c', a) now) m) (c, a) = some now := by
  induction subs generalizing m with
  | nil => simpa using h
  | cons c0 rest ih =>
      simp only [List.foldl_cons]
      apply ih
      by_cases hc : c = c0
      · subst hc
        exact lookupKey_setKey_self _ _ _
      · rw [lookupKey_setKey_ne _ _ _ _ (by simp [hc])]
        exact h

theorem lookupKey_foldl_setKey_mem (subs : List ChatId) (a : Address) (now : ℤ)
    (m : List ((ChatId × Address) × ℤ)) (c : ChatId) (h : c ∈ subs) :
    lookupKey (subs.foldl (fun acc c' => setKey acc (c', a) now) m) (c, a) = some now := by
  induction subs generalizing m with
  | nil => simp at h
  | cons c0 rest ih =>
      simp only [List.foldl_cons]
      rcases List.mem_cons.mp h with h | h
      · subst h
        exact lookupKey_foldl_setKey_of_some rest a now _ c (lookupKey_setKey_self _ _ _)
      · exact ih _ h

theorem send_summary_msgs (st : BotState) (a : Address) (now : ℤ) :
    (send_summary_to_subscribers st a now).2 =
      (subscribersOf st a).map (fun c => ⟨c, a, .summary⟩) := rfl

theorem send_summary_us (st : BotState) (a : Address) (now : ℤ) :
    (send_summary_to_subscribers st a now).1.user_subscriptions =
      st.user_subscriptions := rfl

theorem send_summary_ps (st : BotState) (a : Address) (now : ℤ) :
    (send_summary_to_subscribers st a now).1.position_state = st.position_state := rfl

theorem send_summary_stamp (st : BotState) (a : Address) (now : ℤ) (c : ChatId)
    (h : c ∈ subscribersOf st a) :
    lookupKey (send_summary_to_subscribers st a now).1.last_daily_update (c, a) =
      some now :=
  lookupKey_foldl_setKey_mem _ _ _ _ _ h

theorem summary_check_loop_preserves (a : Address) (now : ℤ) :
    ∀ (subs : List ChatId) (st : BotState),
      (summary_check_loop st subs a now).1.user_subscriptions = st.user_subscriptions ∧
      (summary_check_loop st subs a now).1.position_state = st.position_state
  | [], st => ⟨rfl, rfl⟩
  | c :: rest, st => by
      unfold summary_check_loop
      by_cases hd : (should_send_update st c a now).1
      · simp only [hd, if_true]
        constructor
        · rw [send_summary_us, should_send_update_us]
        · rw [send_summary_ps, should_send_update_ps]
      · simp only [hd, Bool.false_eq_true, if_false]
        obtain ⟨h1, h2⟩ := summary_check_loop_preserves a now rest (should_send_update st c a now).2
        constructor
        · rw [h1, should_send_update_us]
        · rw [h2, should_send_update_ps]

theorem summary_check_loop_msgs_shape (a : Address) (now : ℤ) :
    ∀ (subs : List ChatId) (st : BotState),
      ∀ m ∈ (summary_check_loop st subs a now).2,
        m.addr = a ∧ m.body = CycleBody.summary
  | [], st => by simp [summary_check_loop]
  | c :: rest, st => by
      unfold summary_check_loop
      by_cases hd : (should_send_update st c a now).1
      · simp only [hd, if_true]
        intro m hm
        rw [send_summary_msgs] at hm
        obtain ⟨c', _, rfl⟩ := List.mem_map.mp hm
        exact ⟨rfl, rfl⟩
      · simp only [hd, Bool.false_eq_true, if_false]
        exact summary_check_loop_msgs_shape a now rest _

theorem summary_check_loop_spec (a : Address) (now : ℤ) (st0 : BotState) :
    ∀ (subs : List ChatId) (st : BotState),
      st.user_subscriptions = st0.user_subscriptions →
      (∀ c ∈ subs, lookupKey st.last_daily_update (c, a) =
        lookupKey st0.last_daily_update (c, a)) →
      subs.Nodup →
      ((summary_check_loop st subs a now).2 =
          (if subs.any (fun c => isDue st0 c a now)
           then (subscribersOf st0 a).map (fun c => ⟨c, a, CycleBody.summary⟩)
           else []))
        ∧ (subs.any (fun c => isDue st0 c a now) = true →
            ∀ c ∈ subscribersOf st0 a,
              lookupKey (summary_check_loop st subs a now).1.last_daily_update (c, a) =
                some now)
  | [], st => by
      intro _ _ _
      refine ⟨by simp [summary_check_loop], ?_⟩
      intro h
      simp at h
  | c0 :: rest, st => by
      intro hus hld hnd
      simp only [List.nodup_cons] at hnd
      have hdue : (should_send_update st c0 a now).1 = isDue st0 c0 a now := by
        rw [should_send_update_fst]
        exact isDue_congr st0 st c0 a now (hld c0 (List.mem_cons_self _ _))
      unfold summary_check_loop
      by_cases hd : isDue st0 c0 a now
      · simp only [hdue, hd, if_true]
        have hsubs2 : subscribersOf (should_send_update st c0 a now).2 a =
            subscribersOf st0 a := by
          have h1 := subscribersOf_congr st (should_send_update st c0 a now).2 a
            (should_send_update_us st c0 a now)
          rw [h1]
          exact subscribersOf_congr st0 st a hus
        have hany : (c0 :: rest).any (fun c => isDue st0 c a now) = true := by
          simp [hd]
        refine ⟨?_, ?_⟩
        · rw [send_summary_msgs, hsubs2, hany, if_pos rfl]
        · intro _ c hc
          exact send_summary_stamp _ a now c (hsubs2 ▸ hc)
      · simp only [hdue, hd, Bool.false_eq_true, if_false]
        have hld' : ∀ c ∈ rest, lookupKey (should_send_update st c0 a now).2.last_daily_update (c, a) =
            lookupKey st0.last_daily_update (c, a) := by
          intro c hc
          have hne : c ≠ c0 := fun hEq => hnd.1 (hEq ▸ hc)
          rw [should_send_update_lookup_ne st c0 a now c a hne]
          exact hld c (List.mem_cons_of_mem _ hc)
        have hus' : (should_send_update st c0 a now).2.user_subscriptions =
            st0.user_subscriptions := by
          rw [should_send_update_us]
          exact hus
        have ih := summary_check_loop_spec a now st0 rest
          (should_send_update st c0 a now).2 hus' hld' hnd.2
        have hany : (c0 :: rest).any (fun c => isDue st0 c a now) =
            rest.any (fun c => isDue st0 c a now) := by
          simp [hd]
        refine ⟨?_, ?_⟩
        · rw [ih.1, hany]
        · intro hA c hc
          exact ih.2 (by rw [← hany]; exact hA) c hc

theorem summary_step_msgs (st : BotState) (a : Address) (now : ℤ)
    (hnd : (subscribersOf st a).Nodup) :
    (summary_step st a now).2 =
      (if (subscribersOf st a).any (fun c => isDue st c a now)
       then (subscribersOf st a).map (fun c => ⟨c, a, CycleBody.summary⟩)
       else []) := by
  unfold summary_step
  by_cases hh : hourOf now ∈ UPDATE_HOURS
  · rw [if_pos hh]
    exact (summary_check_loop_spec a now st (subscribersOf st a) st rfl
      (fun _ _ => rfl) hnd).1
  · rw [if_neg hh]
    have : ∀ c, isDue st c a now = false := by
      intro c
      simp [isDue, hh]
    rw [if_neg]
    simp [List.any_eq_true, this]

theorem summary_step_stamps (st : BotState) (a : Address) (now : ℤ)
    (hnd : (subscribersOf st a).Nodup)
    (hA : (subscribersOf st a).any (fun c => isDue st c a now) = true) :
    ∀ c ∈ subscribersOf st a,
      lookupKey (summary_step st a now).1.last_daily_update (c, a) = some now := by
  unfold summary_step
  by_cases hh : hourOf now ∈ UPDATE_HOURS
  · rw [if_pos hh]
    exact (summary_check_loop_spec a now st (subscribersOf st a) st rfl
      (fun _ _ => rfl) hnd).2 hA
  · exfalso
    have : ∀ c, isDue st c a now = false := by
      intro c
      simp [isDue, hh]
    simp [List.any_eq_true, this] at hA

theorem summary_step_preserves (st : BotState) (a : Address) (now : ℤ) :
    (summary_step st a now).1.user_subscriptions = st.user_subscriptions ∧
    (summary_step st a now).1.position_state = st.position_state := by
  unfold summary_step
  by_cases hh : hourOf now ∈ UPDATE_HOURS
  · rw [if_pos hh]
    exact summary_check_loop_preserves a now (subscribersOf st a) st
  · rw [if_neg hh]
    exact ⟨rfl, rfl⟩

theorem summary_step_msgs_shape (st : BotState) (a : Address) (now : ℤ) :
    ∀ m ∈ (summary_step st a now).2, m.addr = a ∧ m.body = CycleBody.summary := by
  unfold summary_step
  by_cases hh : hourOf now ∈ UPDATE_HOURS
  · rw [if_pos hh]
    exact summary_check_loop_msgs_shape a now (subscribersOf st a) st
  · rw [if_neg hh]
    simp

end SchedulerLemmas

section MonitorLemmas

theorem check_positions_fetch_fail (st : BotState) (a : Address) :
    check_positions_for_subscribers st a none = (st, []) := rfl

theorem check_positions_us (st : BotState) (a : Address) (resp : Option RawResponse) :
    (check_positions_for_subscribers st a resp).1.user_subscriptions =
      st.user_subscriptions := by
  unfold check_positions_for_subscribers
  cases get_positions resp with
  | none => rfl
  | some current => rfl

theorem check_positions_ld (st : BotState) (a : Address) (resp : Option RawResponse) :
    (check_positions_for_subscribers st a resp).1.last_daily_update =
      st.last_daily_update := by
  unfold check_positions_for_subscribers
  cases get_positions resp with
  | none => rfl
  | some current => rfl

theorem check_positions_ps_lookup_ne (st : BotState) (a : Address)
    (resp : Option RawResponse) (a' : Address) (h : a' ≠ a) :
    lookupKey (check_positions_for_subscribers st a resp).1.position_state a' =
      lookupKey st.position_state a' := by
  unfold check_positions_for_subscribers
  cases get_positions resp with
  | none => rfl
  | some current => exact lookupKey_setKey_ne _ _ _ _ h

theorem check_positions_msgs_addr (st : BotState) (a : Address)
    (resp : Option RawResponse) :
    ∀ m ∈ (check_positions_for_subscribers st a resp).2, m.addr = a := by
  unfold check_positions_for_subscribers
  cases get_positions resp with
  | none => simp
  | some current =>
      intro m hm
      simp only at hm
      rw [List.mem_flatMap] at hm
      obtain ⟨e, _, hm⟩ := hm
      obtain ⟨c, _, rfl⟩ := List.mem_map.mp hm
      rfl

theorem process_address_ps_lookup (st : BotState) (b : Address)
    (fetch : Address → Option RawResponse) (now : ℤ) (a : Address)
    (h : b ≠ a ∨ fetch b = none) :
    lookupKey (process_address st b fetch now).1.position_state a =
      lookupKey st.position_state a := by
  unfold process_address
  simp only
  rw [(summary_step_preserves _ b now).2]
  rcases h with h | h
  · exact check_positions_ps_lookup_ne st b (fetch b) a (Ne.symm h)
  · rw [h, check_positions_fetch_fail]

theorem process_address_msgs_addr (st : BotState) (b : Address)
    (fetch : Address → Option RawResponse) (now : ℤ) :
    ∀ m ∈ (process_address st b fetch now).2, m.addr = b := by
  unfold process_address
  simp only
  intro m hm
  rcases List.mem_append.mp hm with hm | hm
  · exact check_positions_msgs_addr st b (fetch b) m hm
  · exact (summary_step_msgs_shape _ b now m hm).1

theorem process_address_fetch_none (st : BotState) (b : Address)
    (fetch : Address → Option RawResponse) (now : ℤ) (h : fetch b = none) :
    ∀ m ∈ (process_address st b fetch now).2, m.body = CycleBody.summary := by
  unfold process_address
  rw [h, check_positions_fetch_fail]
  simp only [List.nil_append]
  intro m hm
  exact (summary_step_msgs_shape st b now m hm).2

theorem processAddresses_ps_lookup (fetch : Address → Option RawResponse) (now : ℤ)
    (a : Address) (h : fetch a = none) :
    ∀ (addrs : List Address) (st : BotState),
      lookupKey (processAddresses st addrs fetch now).1.position_state a =
        lookupKey st.position_state a
  | [], st => rfl
  | b :: rest, st => by
      unfold processAddresses
      simp only
      rw [processAddresses_ps_lookup fetch now a h rest _]
      apply process_address_ps_lookup
      by_cases hb : b = a
      · subst hb
        exact Or.inr h
      · exact Or.inl hb

theorem processAddresses_msgs_of_fetch_none (fetch : Address → Option RawResponse)
    (now : ℤ) (a : Address) (h : fetch a = none) :
    ∀ (addrs : List Address) (st : BotState),
      ∀ m ∈ (processAddresses st addrs fetch now).2, m.addr = a →
        m.body = CycleBody.summary
  | [], st => by simp [processAddresses]
  | b :: rest, st => by
      unfold processAddresses
      simp only
      intro m hm hma
      rcases List.mem_append.mp hm with hm | hm
      · by_cases hb : b = a
        · subst hb
          exact process_address_fetch_none st b fetch now h m hm
        · exact absurd (hma ▸ process_address_msgs_addr st b fetch now m hm) (Ne.symm hb)
      · exact processAddresses_msgs_of_fetch_none fetch now a h rest _ m hm hma

end MonitorLemmas

section InvariantLemmas

theorem parseItem_size_ne (it : Option RawPosition) (c : String) (p : Position)
    (h : parseItem it = some (c, p)) : p.size ≠ 0 := by
  match it with
  | none => simp [parseItem] at h
  | some pos =>
      rw [show parseItem (some pos) = parse_position pos from rfl] at h
      unfold parse_position at h
      repeat' split at h
      all_goals try (injection h with hpair; injection hpair with h1 h2; subst h2; assumption)
      all_goals exact absurd h (by simp)

theorem SnapInv_setKey (s : Snapshot) (c : String) (p : Position)
    (hs : SnapInv s) (hp : p.size ≠ 0) : SnapInv (setKey s c p) := by
  intro cp hcp
  rcases mem_setKey s c p cp hcp with h | h
  · exact hs cp h
  · rw [h]
    exact hp

theorem SnapInv_parseResponse (r : RawResponse) : SnapInv (parseResponse r) := by
  cases r with
  | none => intro cp hcp; simp [parseResponse] at hcp
  | some items =>
      suffices h : ∀ acc : Snapshot, SnapInv acc →
          SnapInv (items.foldl
            (fun acc it =>
              match parseItem it with
              | none => acc
              | some (c, p) => setKey acc c p) acc) by
        exact h [] (by intro cp hcp; simp at hcp)
      induction items with
      | nil => intro acc ha; simpa using ha
      | cons it rest ih =>
          intro acc ha
          simp only [List.foldl_cons]
          apply ih
          cases hp : parseItem it with
          | none => simpa [hp] using ha
          | some cp =>
              obtain ⟨c, p⟩ := cp
              simp only [hp]
              exact SnapInv_setKey acc c p ha (parseItem_size_ne it c p hp)

theorem StateInv_setKey (ps : List (Address × Snapshot)) (a : Address) (s : Snapshot)
    (hps : ∀ x ∈ ps, SnapInv (x : Address × Snapshot).2) (hs : SnapInv s) :
    ∀ x ∈ setKey ps a s, SnapInv (x : Address × Snapshot).2 := by
  intro x hx
  rcases mem_setKey ps a s x hx with h | h
  · exact hps x h
  · rw [h]
    exact hs

theorem StateInv_check_positions (st : BotState) (a : Address)
    (resp : Option RawResponse) (h : StateInv st) :
    StateInv (check_positions_for_subscribers st a resp).1 := by
  unfold check_positions_for_subscribers
  cases hres : get_positions resp with
  | none => exact h
  | some current =>
      intro x hx
      apply StateInv_setKey st.position_state a current h _ x hx
      cases resp with
      | none => simp [get_positions] at hres
      | some r =>
          have : current = parseResponse r := by
            simpa [get_positions] using hres.symm
          rw [this]
          exact SnapInv_parseResponse r

theorem StateInv_summary_step (st : BotState) (a : Address) (now : ℤ)
    (h : StateInv st) : StateInv (summary_step st a now).1 := by
  intro x hx
  rw [(summary_step_preserves st a now).2] at hx
  exact h x hx

theorem StateInv_process_address (st : BotState) (b : Address)
    (fetch : Address → Option RawResponse) (now : ℤ) (h : StateInv st) :
    StateInv (process_address st b fetch now).1 := by
  unfold process_address
  simp only
  exact StateInv_summary_step _ b now (StateInv_check_positions st b (fetch b) h)

theorem StateInv_processAddresses (fetch : Address → Option RawResponse) (now : ℤ) :
    ∀ (addrs : List Address) (st : BotState), StateInv st →
      StateInv (processAddresses st addrs fetch now).1
  | [], st, h => h
  | b :: rest, st, h => by
      unfold processAddresses
      simp only
      exact StateInv_processAddresses fetch now rest _
        (StateInv_process_address st b fetch now h)

end InvariantLemmas

section RegistryLemmas

theorem mem_subscribersOf_of_watches (st : BotState) (c : ChatId) (a : Address)
    (h : watches st c a) : c ∈ subscribersOf st a := by
  unfold watches subsOf at h
  cases hlk : lookupKey st.user_subscriptions c with
  | none => rw [hlk] at h; simp at h
  | some subs =>
      rw [hlk] at h
      simp only [Option.getD_some] at h
      have hmem : (c, subs) ∈ st.user_subscriptions := lookupKey_mem _ _ _ hlk
      unfold subscribersOf
      exact List.mem_map.mpr ⟨(c, subs), List.mem_filter.mpr ⟨hmem, by simpa⟩, rfl⟩

theorem mem_foldr_append (a : Address) :
    ∀ (l : List (ChatId × List Address)) (p : ChatId × List Address),
      p ∈ l → a ∈ p.2 → a ∈ (l.map Prod.snd).foldr (· ++ ·) []
  | [], p, hp, _ => by simp at hp
  | q :: rest, p, hp, ha => by
      simp only [List.map_cons, List.foldr_cons]
      rcases List.mem_cons.mp hp with hp | hp
      · subst hp
        exact List.mem_append.mpr (Or.inl ha)
      · exact List.mem_append.mpr (Or.inr (mem_foldr_append a rest p hp ha))

theorem mem_allAddresses_of_watches (st : BotState) (c : ChatId) (a : Address)
    (h : watches st c a) : a ∈ allAddresses st := by
  unfold watches subsOf at h
  cases hlk : lookupKey st.user_subscriptions c with
  | none => rw [hlk] at h; simp at h
  | some subs =>
      rw [hlk] at h
      simp only [Option.getD_some] at h
      have hmem : (c, subs) ∈ st.user_subscriptions := lookupKey_mem _ _ _ hlk
      unfold allAddresses
      exact List.mem_dedup.mpr (mem_foldr_append a st.user_subscriptions (c, subs) hmem h)

theorem handle_add_invalid (st : BotState) (c : ChatId) (a : Address)
    (resp : Option RawResponse) (hv : validAddr a = false) :
    handle_add st c a resp = (st, [(c, Reply.invalidAddress)]) := by
  unfold handle_add
  simp [hv]

theorem handle_add_already (st : BotState) (c : ChatId) (a : Address)
    (resp : Option RawResponse) (hv : validAddr a = true) (hm : a ∈ subsOf st c) :
    handle_add st c a resp = (st, [(c, Reply.alreadyWatching)]) := by
  unfold handle_add
  simp [hv, hm]

theorem handle_add_new (st : BotState) (c : ChatId) (a : Address)
    (resp : Option RawResponse) (hv : validAddr a = true) (hnm : a ∉ subsOf st c) :
    handle_add st c a resp =
      ({ st with
          user_subscriptions := setKey st.user_subscriptions c (subsOf st c ++ [a]),
          position_state :=
            if (lookupKey st.position_state a).isSome then st.position_state
            else setKey st.position_state a ((get_positions resp).getD []) },
       (c, Reply.nowMonitoring) ::
         (if ((lookupKey
              (if (lookupKey st.position_state a).isSome then st.position_state
               else setKey st.position_state a ((get_positions resp).getD [])) a).getD
              []).isEmpty
          then [] else [(c, Reply.currentPositions)])) := by
  unfold handle_add
  simp [hv, hnm]

theorem handle_remove_miss (st : BotState) (c : ChatId) (a : Address)
    (h : ¬ watches st c a) :
    handle_remove st c a = (st, [(c, Reply.notWatching)]) := by
  unfold watches subsOf at h
  unfold handle_remove
  cases hlk : lookupKey st.user_subscriptions c with
  | none => rfl
  | some subs =>
      rw [hlk] at h
      simp only [Option.getD_some] at h
      simp [h]

theorem handle_remove_hit (st : BotState) (c : ChatId) (a : Address)
    (subs : List Address) (hlk : lookupKey st.user_subscriptions c = some subs)
    (hmem : a ∈ subs) :
    handle_remove st c a =
      ({ st with
          user_subscriptions :=
            if (subs.erase a).isEmpty then delKey st.user_subscriptions c
            else setKey st.user_subscriptions c (subs.erase a) },
       [(c, Reply.stoppedMonitoring)]) := by
  unfold handle_remove
  simp [hlk, hmem]

theorem handle_remove_ps (st : BotState) (c : ChatId) (a : Address) :
    (handle_remove st c a).1.position_state = st.position_state := by
  unfold handle_remove
  cases hlk : lookupKey st.user_subscriptions c with
  | none => rfl
  | some subs =>
      by_cases hmem : a ∈ subs
      · simp [hmem]
      · simp [hmem]

theorem StateInv_handle_add (st : BotState) (c : ChatId) (a : Address)
    (resp : Option RawResponse) (h : StateInv st) :
    StateInv (handle_add st c a resp).1 := by
  by_cases hv : validAddr a
  · by_cases hm : a ∈ subsOf st c
    · rw [handle_add_already st c a resp hv hm]
      exact h
    · rw [handle_add_new st c a resp hv hm]
      simp only
      by_cases hps : (lookupKey st.position_state a).isSome
      · simpa [hps] using h
      · simp only [hps, Bool.false_eq_true, if_false]
        intro x hx
        apply StateInv_setKey st.position_state a ((get_positions resp).getD []) h _ x hx
        cases resp with
        | none => intro cp hcp; simp [get_positions] at hcp
        | some r =>
            simp only [get_positions, Option.map_some, Option.getD_some]
            exact SnapInv_parseResponse r
  · rw [handle_add_invalid st c a resp (by simpa using hv)]
    exact h

end RegistryLemmas

section Claims

/-- C2 (counterexample): the claim says a position entry whose
`entryPx` is present but non-numeric is still included in the snapshot
with entry price zero.  The parser instead drops the whole entry:
`rawBadEntry` has `coin = "BTC"`, non-zero size 2, and an `entryPx`
that `float()` rejects, and the resulting snapshot is empty — in
particular `"BTC"` is not present at all. -/
theorem C2_counterexample :
    parseResponse (some [some rawBadEntry]) = [] ∧
    lookupKey (parseResponse (some [some rawBadEntry])) "BTC" = none := by
  refine ⟨by decide, by decide⟩

/-- C2 (amended): a position entry whose numeric fields (entry price,
unrealized PnL, liquidation price, margin) are each missing, null, or
numeric is included in the snapshot (given a truthy coin and non-zero
size), with missing and null fields defaulted to zero; an entry having
any non-numeric numeric field is dropped entirely (see the
counterexample). -/
theorem C2_parse_defaults (pos : RawPosition) (coin : String) (s : ℚ)
    (hc : pos.coin = some coin) (hne : coin ≠ "")
    (hsz : pos.szi ≠ RawNum.bad) (hs : defaultedVal pos.szi = s) (hs0 : s ≠ 0)
    (he : pos.entryPx ≠ RawNum.bad) (hp : pos.unrealizedPnl ≠ RawNum.bad)
    (hl : pos.liquidationPx ≠ RawNum.bad) (hm : pos.marginUsed ≠ RawNum.bad) :
    parse_position pos = some (coin,
      { size := s
        entry := defaultedVal pos.entryPx
        pnl := defaultedVal pos.unrealizedPnl
        leverage := parseLeverage pos.leverage
        side := if s > 0 then "LONG" else "SHORT"
        liq_price := defaultedVal pos.liquidationPx
        margin := defaultedVal pos.marginUsed }) := by
  have hfl : ∀ r : RawNum, r ≠ RawNum.bad → floatOrDefault r = some (defaultedVal r) := by
    intro r hr
    cases r with
    | missing => rfl
    | null => rfl
    | num q => rfl
    | bad => exact absurd rfl hr
  unfold parse_position
  simp only [hc, hfl _ hsz, hs, hfl _ he, hfl _ hp, hfl _ hl, hfl _ hm]
  rw [if_neg hne, if_pos hs0]

/-- C2 (witness): a null entry price is defaulted to zero and the
entry is kept. -/
theorem C2_parse_defaults_witness :
    parse_position rawNullEntry = some ("BTC",
      { size := 2, entry := 0, pnl := 100, leverage := "5", side := "LONG",
        liq_price := 45000, margin := 0 }) := by
  have h := C2_parse_defaults rawNullEntry "BTC" 2 rfl (by decide) (by decide) rfl
    (by decide) (by decide) (by decide) (by decide) (by decide)
  simpa [rawNullEntry, rawGood, defaultedVal, parseLeverage] using h

/-- C10 (confirmed): the dueness check is not read-only — after any
call of `should_send_update`, the pair has a `last_daily_update` entry:
the stored value is the old one when present, and the freshly inserted
default `now - 86400` (24 hours before `now`) when the pair had no
recorded timestamp. -/
theorem C10_default_stamp (st : BotState) (c : ChatId) (a : Address) (now : ℤ) :
    lookupKey (should_send_update st c a now).2.last_daily_update (c, a) =
      some ((lookupKey st.last_daily_update (c, a)).getD (now - 86400)) := by
  unfold should_send_update
  cases hlk : lookupKey st.last_daily_update (c, a) with
  | none =>
      simp only [hlk, Option.isSome_none, Bool.false_eq_true, if_false,
        Option.getD_none]
      exact lookupKey_setKey_self _ _ _
  | some v => simp [hlk]

/-- C9 (confirmed): diffing a snapshot against itself yields no events,
and when the freshly fetched snapshot parses to exactly the stored one,
`check_positions_for_subscribers` dispatches no change notification. -/
theorem C9_self_diff (st : BotState) (a : Address) (old : Snapshot)
    (r : RawResponse) (hnd : (old.map Prod.fst).Nodup)
    (hst : lookupKey st.position_state a = some old) (hr : parseResponse r = old) :
    diffEvents old old = [] ∧ (check_positions_for_subscribers st a (some r)).2 = [] := by
  have h1 : openedEvents old old = [] := by
    rw [openedEvents, List.filterMap_eq_nil_iff]
    intro cp hcp
    rw [if_pos (lookupKey_isSome_of_mem old cp.1 cp.2 hcp)]
  have h2 : closedEvents old old = [] := by
    rw [closedEvents, List.filterMap_eq_nil_iff]
    intro cp hcp
    rw [if_pos (lookupKey_isSome_of_mem old cp.1 cp.2 hcp)]
  have h3 : resizedEvents old old = [] := by
    rw [resizedEvents, List.filterMap_eq_nil_iff]
    intro cp hcp
    rw [lookupKey_of_mem_nodup old cp.1 cp.2 hnd hcp]
    show resizeEventFor cp.1 cp.2 cp.2 = none
    simp only [resizeEventFor]
    by_cases h0 : 0 < |(cp.2 : Position).size|
    · rw [if_pos h0, if_neg (by simp)]
    · rw [if_neg h0]
  have hdiff : diffEvents old old = [] := by
    rw [diffEvents, h1, h2, h3]
    rfl
  refine ⟨hdiff, ?_⟩
  unfold check_positions_for_subscribers
  rw [show get_positions (some r) = some old by simp [get_positions, hr]]
  simp [hst, hdiff]

/-- C9 (witness): a concrete state whose cached snapshot for `addrA`
is exactly what the raw response parses to. -/
theorem C9_self_diff_witness :
    diffEvents [("BTC", pGood)] [("BTC", pGood)] = [] ∧
    (check_positions_for_subscribers stSame addrA (some (some [some rawGood]))).2 = [] :=
  C9_self_diff stSame addrA [("BTC", pGood)] (some [some rawGood])
    (by decide) (by decide) (by decide)

/-- C3 (confirmed): for an instrument present in both snapshots, a
resize event is emitted exactly when the old size is non-zero and the
relative change in absolute size strictly exceeds 10 percent; the event
is labelled increased precisely when the new magnitude is strictly
larger, and it carries the old and new absolute sizes, the percentage
change and the current PnL.  A zero old size yields no event. -/
theorem C3_resized (old new : Snapshot) (coin : String) (po pn : Position)
    (hnd : (new.map Prod.fst).Nodup)
    (ho : lookupKey old coin = some po) (hn : lookupKey new coin = some pn) :
    (diffEvents old new).filter (isResizedOf coin) =
      (if po.size ≠ 0 ∧ abs (|pn.size| - |po.size|) / |po.size| > 1/10
       then [PosEvent.resized coin (decide (|pn.size| > |po.size|)) pn.side
              pn.leverage (|po.size|) (|pn.size|)
              (abs (|pn.size| - |po.size|) / |po.size| * 100) pn.pnl]
       else []) := by
  rw [diffEvents, List.filter_append, List.filter_append,
    filter_openedEvents_isResizedOf, filter_closedEvents_isResizedOf,
    filter_resizedEvents_keyed old coin pn new hnd hn]
  simp only [List.nil_append, ho]
  simp only [resizeEventFor]
  by_cases h0 : po.size = 0
  · rw [if_neg (by simp [h0]), if_neg (by intro hh; exact hh.1 h0)]
    rfl
  · have habs : 0 < |po.size| := abs_pos.mpr h0
    rw [if_pos habs]
    by_cases hgt : abs (|pn.size| - |po.size|) / |po.size| > 1/10
    · rw [if_pos (by linarith), if_pos ⟨h0, hgt⟩]
      rfl
    · rw [if_neg (by intro hh; exact hgt (by linarith)),
        if_neg (by intro hh; exact hgt hh.2)]
      rfl

/-- C3 (witness): the boundary cases of the spec — growing a size-10
position to 11.0 is exactly 10 percent and emits nothing, growing it to
11.01 emits one increased resize event with a 10.1 percent change. -/
theorem C3_resized_witness :
    (diffEvents [("BTC", p10)] [("BTC", p11)]).filter (isResizedOf "BTC") = [] ∧
    (diffEvents [("BTC", p10)] [("BTC", p1101)]).filter (isResizedOf "BTC") =
      [PosEvent.resized "BTC" true "LONG" "5" 10 (1101/100) (101/10) 5] := by
  constructor
  · rw [C3_resized [("BTC", p10)] [("BTC", p11)] "BTC" p10 p11 (by decide)
      (by decide) (by decide)]
    rw [if_neg]
    intro hh
    have h2 := hh.2
    rw [show (p11.size : ℚ) = 11 from rfl, show (p10.size : ℚ) = 10 from rfl] at h2
    norm_num [abs_of_pos] at h2
  · rw [C3_resized [("BTC", p10)] [("BTC", p1101)] "BTC" p10 p1101 (by decide)
      (by rfl) (by rfl)]
    rw [if_pos]
    · rw [show (p1101.size : ℚ) = 1101/100 from rfl, show (p10.size : ℚ) = 10 from rfl]
      norm_num [abs_of_pos, p1101, p10]
    · constructor
      · norm_num [p10]
      · rw [show (p1101.size : ℚ) = 1101/100 from rfl, show (p10.size : ℚ) = 10 from rfl]
        norm_num [abs_of_pos]

/-- C4 (confirmed): an instrument present in the old snapshot and
absent from the new one produces exactly one Closed event, carrying the
old position's side, leverage, entry price, size and final PnL, and
classified as profit precisely when the final PnL is at least zero. -/
theorem C4_closed (old new : Snapshot) (coin : String) (po : Position)
    (hnd : (old.map Prod.fst).Nodup) (ho : lookupKey old coin = some po)
    (hn : lookupKey new coin = none) :
    (diffEvents old new).filter (isClosedOf coin) =
      [PosEvent.closed coin (decide (po.pnl ≥ 0)) po.side po.leverage po.entry
        po.size po.pnl] := by
  rw [diffEvents, List.filter_append, List.filter_append,
    filter_openedEvents_isClosedOf, filter_resizedEvents_isClosedOf,
    filter_closedEvents_keyed new coin po old hnd ho, hn]
  simp [closedEventFor]

/-- C4 (witness): final PnL −5 is classified as a loss, final PnL 0 as
a profit. -/
theorem C4_closed_witness :
    (diffEvents [("BTC", pLoss)] []).filter (isClosedOf "BTC") =
      [PosEvent.closed "BTC" false "LONG" "5" 100 10 (-5)] ∧
    (diffEvents [("BTC", pEven)] []).filter (isClosedOf "BTC") =
      [PosEvent.closed "BTC" true "LONG" "5" 100 10 0] := by
  constructor
  · rw [C4_closed [("BTC", pLoss)] [] "BTC" pLoss (by decide) (by decide) rfl]
    have hdec : decide ((pLoss.pnl : ℚ) ≥ 0) = false := by
      rw [decide_eq_false_iff_not]
      rw [show (pLoss.pnl : ℚ) = -5 from rfl]
      norm_num
    rw [hdec]
    rfl
  · rw [C4_closed [("BTC", pEven)] [] "BTC" pEven (by decide) (by decide) rfl]
    have hdec : decide ((pEven.pnl : ℚ) ≥ 0) = true := by
      rw [decide_eq_true_eq]
      rw [show (pEven.pnl : ℚ) = 0 from rfl]
    rw [hdec]
    rfl

/-- C6 (confirmed): AddWatch reports `InvalidAddress` with no state
change exactly when the address is not 42 characters starting with
`0x`; an existing pair is a no-op reporting already-watching; otherwise
the pair is inserted and the success message sent, and when the address
had no cached snapshot the fetch result is stored, with the empty
snapshot standing in for a failed fetch. -/
theorem C6_add_watch (st : BotState) (c : ChatId) (a : Address)
    (resp : Option RawResponse) :
    (validAddr a = true ↔ (a.data.take 2 = ['0', 'x'] ∧ a.length = 42))
    ∧ (validAddr a = false → handle_add st c a resp = (st, [(c, Reply.invalidAddress)]))
    ∧ (validAddr a = true → a ∈ subsOf st c →
        handle_add st c a resp = (st, [(c, Reply.alreadyWatching)]))
    ∧ (validAddr a = true → a ∉ subsOf st c →
        watches (handle_add st c a resp).1 c a
        ∧ (handle_add st c a resp).2.head? = some (c, Reply.nowMonitoring)
        ∧ (lookupKey st.position_state a = none →
            lookupKey (handle_add st c a resp).1.position_state a =
              some ((get_positions resp).getD []))
        ∧ ((lookupKey st.position_state a).isSome →
            (handle_add st c a resp).1.position_state = st.position_state)) := by
  refine ⟨by simp [validAddr], handle_add_invalid st c a resp,
    handle_add_already st c a resp, ?_⟩
  intro hv hnm
  rw [handle_add_new st c a resp hv hnm]
  refine ⟨?_, rfl, ?_, ?_⟩
  · show a ∈ subsOf _ c
    unfold subsOf
    simp only [lookupKey_setKey_self, Option.getD_some]
    simp
  · intro hn
    simp only [hn, Option.isSome_none, Bool.false_eq_true, if_false]
    exact lookupKey_setKey_self _ _ _
  · intro hs
    simp only [hs, if_true]

/-- C6 (witness): a fresh valid address whose initial fetch fails is
inserted with the empty snapshot and the success reply. -/
theorem C6_add_watch_witness :
    watches (handle_add stEmpty 1 addrA none).1 1 addrA
    ∧ (handle_add stEmpty 1 addrA none).2.head? = some (1, Reply.nowMonitoring)
    ∧ lookupKey (handle_add stEmpty 1 addrA none).1.position_state addrA = some [] := by
  have h := (C6_add_watch stEmpty 1 addrA none).2.2.2 (by decide) (by decide)
  exact ⟨h.1, h.2.1, h.2.2.1 rfl⟩

/-- C7 (confirmed): RemoveWatch reports `NotWatching` with no state
change when the pair is absent; otherwise it removes exactly that pair
(every other pair's watch status is untouched), leaves the snapshot
cache and the summary stamps untouched, prunes the subscriber's entry
when its list becomes empty, and any remaining subscriber of the
address keeps it in the fan-out set (`subscribersOf`) and the poll set
(`allAddresses`). -/
theorem C7_remove_watch (st : BotState) (c : ChatId) (a : Address)
    (hnd : (subsOf st c).Nodup) :
    (¬ watches st c a → handle_remove st c a = (st, [(c, Reply.notWatching)]))
    ∧ (watches st c a →
        ¬ watches (handle_remove st c a).1 c a
        ∧ (∀ c' a', ¬(c' = c ∧ a' = a) →
            (watches (handle_remove st c a).1 c' a' ↔ watches st c' a'))
        ∧ (handle_remove st c a).1.position_state = st.position_state
        ∧ (handle_remove st c a).1.last_daily_update = st.last_daily_update
        ∧ (subsOf st c = [a] →
            lookupKey (handle_remove st c a).1.user_subscriptions c = none)
        ∧ (∀ c', c' ≠ c → watches st c' a →
            c' ∈ subscribersOf (handle_remove st c a).1 a ∧
            a ∈ allAddresses (handle_remove st c a).1)) := by
  refine ⟨handle_remove_miss st c a, ?_⟩
  intro hw
  have hw' := hw
  unfold watches subsOf at hw'
  cases hlk : lookupKey st.user_subscriptions c with
  | none => rw [hlk] at hw'; simp at hw'
  | some subs =>
      rw [hlk] at hw'
      simp only [Option.getD_some] at hw'
      have hsubs : subsOf st c = subs := by
        unfold subsOf
        rw [hlk]
        rfl
      rw [hsubs] at hnd
      have key := handle_remove_hit st c a subs hlk hw'
      have hus : (handle_remove st c a).1.user_subscriptions =
          (if (subs.erase a).isEmpty then delKey st.user_subscriptions c
           else setKey st.user_subscriptions c (subs.erase a)) := by
        rw [key]
      have hframe : ∀ c' a', ¬(c' = c ∧ a' = a) →
          (watches (handle_remove st c a).1 c' a' ↔ watches st c' a') := by
        intro c' a' hne
        unfold watches subsOf
        rw [hus]
        by_cases hc : c' = c
        · subst hc
          have ha : a' ≠ a := fun hEq => hne ⟨rfl, hEq⟩
          by_cases hemp : (subs.erase a).isEmpty
          · rw [if_pos hemp, lookupKey_delKey_self, hlk]
            simp only [Option.getD_none, Option.getD_some, List.not_mem_nil,
              false_iff]
            intro hmem
            have hmem2 : a' ∈ subs.erase a := (List.mem_erase_of_ne ha).mpr hmem
            rw [List.isEmpty_iff.mp hemp] at hmem2
            simp at hmem2
          · rw [if_neg hemp, lookupKey_setKey_self, hlk]
            simp only [Option.getD_some]
            exact List.mem_erase_of_ne ha
        · by_cases hemp : (subs.erase a).isEmpty
          · rw [if_pos hemp, lookupKey_delKey_ne _ c c' hc]
          · rw [if_neg hemp, lookupKey_setKey_ne _ c _ c' hc]
      refine ⟨?_, hframe, by rw [key], by rw [key], ?_, ?_⟩
      · unfold watches subsOf
        rw [hus]
        by_cases hemp : (subs.erase a).isEmpty
        · rw [if_pos hemp, lookupKey_delKey_self]
          simp
        · rw [if_neg hemp, lookupKey_setKey_self]
          simp only [Option.getD_some]
          intro hmem
          exact ((List.Nodup.mem_erase_iff hnd).mp hmem).1 rfl
      · intro hone
        rw [hsubs] at hone
        rw [hus]
        subst hone
        rw [if_pos (by simp)]
        exact lookupKey_delKey_self _ _
      · intro c' hc hwc
        have hw2 : watches (handle_remove st c a).1 c' a :=
          (hframe c' a (fun hh => hc hh.1)).mpr hwc
        exact ⟨mem_subscribersOf_of_watches _ c' a hw2,
          mem_allAddresses_of_watches _ c' a hw2⟩

/-- C7 (witness): after AddWatch(10, addrA), AddWatch(20, addrA) and
RemoveWatch(10, addrA), chat 20 still watches addrA, the cached
snapshot is unchanged, and addrA stays in the fan-out and poll sets. -/
theorem C7_remove_watch_witness :
    watches (handle_remove stTen 10 addrA).1 20 addrA
    ∧ (handle_remove stTen 10 addrA).1.position_state = stTen.position_state
    ∧ 20 ∈ subscribersOf (handle_remove stTen 10 addrA).1 addrA
    ∧ addrA ∈ allAddresses (handle_remove stTen 10 addrA).1 := by
  have h := (C7_remove_watch stTen 10 addrA (by decide)).2 (by decide)
  have hfan := h.2.2.2.2.2 20 (by decide) (by decide)
  exact ⟨(h.2.1 20 addrA (by decide)).mpr (by decide), h.2.2.1, hfan.1, hfan.2⟩

/-- C8 (confirmed): zero-size positions are filtered at ingestion, and
the no-zero-size snapshot invariant is preserved by AddWatch,
RemoveWatch and every monitoring cycle, so every snapshot ever stored
contains only positions of non-zero size. -/
theorem C8_zero_size_invariant (st : BotState) (h : StateInv st) :
    (∀ r : RawResponse, SnapInv (parseResponse r))
    ∧ (∀ (c : ChatId) (a : Address) (resp : Option RawResponse),
        StateInv (handle_add st c a resp).1)
    ∧ (∀ (c : ChatId) (a : Address), StateInv (handle_remove st c a).1)
    ∧ (∀ (fetch : Address → Option RawResponse) (now : ℤ) (addrs : List Address),
        StateInv (processAddresses st addrs fetch now).1) := by
  refine ⟨SnapInv_parseResponse, ?_, ?_, ?_⟩
  · intro c a resp
    exact StateInv_handle_add st c a resp h
  · intro c a
    intro x hx
    rw [handle_remove_ps st c a] at hx
    exact h x hx
  · intro fetch now addrs
    exact StateInv_processAddresses fetch now addrs st h

/-- C8 (witness): adding a watch whose initial fetch returns one
zero-size entry and one good entry stores a snapshot satisfying the
invariant. -/
theorem C8_zero_size_invariant_witness :
    StateInv (handle_add stEmpty 1 addrA
      (some (some [some rawZero, some rawGood]))).1 :=
  (C8_zero_size_invariant stEmpty (by intro x hx; simp [stEmpty] at hx)).2.1 1 addrA
    (some (some [some rawZero, some rawGood]))

/-- C5 (confirmed): when the fetch for an address fails, the whole
cycle leaves that address's cached snapshot untouched and dispatches no
diff event for it (any message about it is a schedule-driven summary),
and the cycle processes the remaining addresses exactly as the loop
structure prescribes — one address's failure never aborts the cycle. -/
theorem C5_fetch_failure (st : BotState) (fetch : Address → Option RawResponse)
    (now : ℤ) (a : Address) (addrs : List Address) (h : fetch a = none) :
    lookupKey (processAddresses st addrs fetch now).1.position_state a =
        lookupKey st.position_state a
    ∧ (∀ m ∈ (processAddresses st addrs fetch now).2, m.addr = a →
        m.body = CycleBody.summary)
    ∧ (∀ (b : Address) (rest : List Address),
        processAddresses st (b :: rest) fetch now =
          ((processAddresses (process_address st b fetch now).1 rest fetch now).1,
           (process_address st b fetch now).2 ++
             (processAddresses (process_address st b fetch now).1 rest fetch now).2)) :=
  ⟨processAddresses_ps_lookup fetch now a h addrs st,
   processAddresses_msgs_of_fetch_none fetch now a h addrs st,
   fun _ _ => rfl⟩

/-- C5 (witness): a cycle over `addrA` (fetch fails) and `addrB`
(fetch succeeds) leaves the cached snapshot of `addrA` untouched. -/
theorem C5_fetch_failure_witness :
    lookupKey (processAddresses stTwo [addrA, addrB] fetchBOnly 3600).1.position_state
        addrA =
      lookupKey stTwo.position_state addrA :=
  (C5_fetch_failure stTwo fetchBOnly 3600 addrA [addrA, addrB] (by decide)).1

/-- C1 (counterexample): the claim says the digest goes to exactly the
due subscribers and a not-due subscriber never receives a duplicate in
the same activation window.  In `stDup`, at t = 87600 (hour 0), chat 2
was already sent a digest at t = 87000 inside the same hour-0 window
and is not due — `should_send_update` answers `false` — yet the
summary step of the cycle dispatches a digest to chat 2, because chat 1
is due and the send fans out to every subscriber. -/
theorem C1_counterexample :
    (should_send_update stDup 2 addrA 87600).1 = false
    ∧ lookupKey stDup.last_daily_update (2, addrA) = some 87000
    ∧ (⟨2, addrA, CycleBody.summary⟩ : CycleMsg) ∈ (summary_step stDup addrA 87600).2 := by
  refine ⟨by decide, by decide, by decide⟩

/-- C1 (amended): in each cycle, for every watched address, the summary
step sends a digest either to every subscriber of the address or to
none of them: messages go out exactly when some subscriber is due, in
which case each subscriber (due or not) receives one digest and has its
last-sent timestamp set to now. -/
theorem C1_amended (st : BotState) (a : Address) (now : ℤ)
    (hnd : (subscribersOf st a).Nodup) :
    (summary_step st a now).2 =
      (if (subscribersOf st a).any (fun c => isDue st c a now)
       then (subscribersOf st a).map (fun c => ⟨c, a, CycleBody.summary⟩)
       else [])
    ∧ ((subscribersOf st a).any (fun c => isDue st c a now) = true →
        ∀ c ∈ subscribersOf st a,
          lookupKey (summary_step st a now).1.last_daily_update (c, a) = some now) :=
  ⟨summary_step_msgs st a now hnd, fun hA => summary_step_stamps st a now hnd hA⟩

/-- C1 (witness): with one overdue subscriber, the digest goes out and
the timestamp is recorded. -/
theorem C1_amended_witness :
    (summary_step stOne addrA 86400).2 = [⟨1, addrA, CycleBody.summary⟩]
    ∧ lookupKey (summary_step stOne addrA 86400).1.last_daily_update (1, addrA) =
        some 86400 := by
  have h := C1_amended stOne addrA 86400 (by decide)
  refine ⟨?_, h.2 (by decide) 1 (by decide)⟩
  rw [h.1]
  decide

end Claims

end TrackingBot
